import Mathlib

/-!
Shallow embedding of the recyclone scraper (src/scraper.py, src/generator.py)
and proofs about its documented behaviour.

Conventions of the embedding:
* Python strings are Lean `String`s; character-level work happens on `String.data`
  (a `List Char`).  Python's `str.strip`, `str.lower`, `str.replace`, substring
  tests and `re` patterns are modelled by the explicit functions below
  (ASCII-faithful; the scraped pages and all constants in the source are ASCII
  apart from the multiplication sign '×', which is modelled exactly).
* The five regular expressions of `_parse_material_text` are modelled by a
  small backtracking matcher (`matchEsF`/`reSearch`) whose alternative order
  mirrors Python's `re.search`: leftmost start position first; a lazy `(.+?)`
  grows from the shortest length, greedy `(\d+)` / `(.+)` / `\s*` shrink from
  the longest.
* HTML documents are modelled by `Dom`, a first-child/next-sibling tree; text
  nodes are `NavigableString`s.  `bs4`'s document order (`find_next`,
  `find_all`) is preorder: node, then its subtree, then its following siblings.
* Network and the file system are external effects: network fetches become
  oracle functions passed to the aggregation loops, and `save_to_json` becomes
  a transition on an abstract two-file state with an injected fault site.
-/

namespace Recyclone

/-! ## Python / JavaScript string primitives -/

/-- Whitespace set of Python's `str.strip` / `str.isspace` (ASCII part). -/
def pySpaceChar (c : Char) : Bool :=
  c == ' ' || c == '\t' || c == '\n' || c == '\r' || c == '\x0b' || c == '\x0c'

/-- ASCII decimal digit, the `\d` of the source's regexes. -/
def digitChar (c : Char) : Bool :=
  '0' ≤ c && c ≤ '9'

/-- Any character except a newline: the `.` of the source's regexes. -/
def nonNLChar (c : Char) : Bool :=
  c != '\n'

/-- `pat` is an initial segment of `s` (Python `str.startswith`, JS `startsWith`). -/
def chStarts : List Char → List Char → Bool
  | [], _ => true
  | _ :: _, [] => false
  | p :: ps, c :: cs => p == c && chStarts ps cs

/-- Python's `pat in s` substring test. -/
def containsSub (pat : List Char) : List Char → Bool
  | [] => chStarts pat []
  | c :: cs => chStarts pat (c :: cs) || containsSub pat cs

/-- Strip leading and trailing whitespace from a character list. -/
def chTrim (l : List Char) : List Char :=
  ((l.dropWhile pySpaceChar).reverse.dropWhile pySpaceChar).reverse

/-- Python `str.strip()`. -/
def pyStrip (s : String) : String := ⟨chTrim s.data⟩

/-- Python `str.lower()` (ASCII case folding, as in the source's constants). -/
def lowerStr (s : String) : String := ⟨s.data.map Char.toLower⟩

/-- Substring test on strings, Python's `pat in s`. -/
def strIn (pat s : String) : Bool := containsSub pat.data s.data

/-- Value of a run of decimal digits, Python `int(...)` on the regex group. -/
def digitsVal (l : List Char) : Nat :=
  l.foldl (fun n c => n * 10 + (c.toNat - 48)) 0

/-- Python `str.split(sep)` for a single character: every occurrence splits,
empty pieces are kept (`''.split` gives `['']`). -/
def splitChar (sep : Char) : List Char → List (List Char)
  | [] => [[]]
  | c :: cs =>
    let r := splitChar sep cs
    if c == sep then [] :: r
    else
      match r with
      | x :: xs => (c :: x) :: xs
      | [] => [[c]]

/-- Delimiter class of `re.split('[,;/\n]+', ...)` in the labeled-table path. -/
def delimChar (c : Char) : Bool :=
  c == ',' || c == ';' || c == '/' || c == '\n'

/-- Maximal runs of non-delimiter characters (fuel-driven so it reduces). -/
def splitRunsF : Nat → List Char → List (List Char)
  | 0, _ => []
  | _, [] => []
  | fuel + 1, c :: cs =>
    if delimChar c then splitRunsF fuel cs
    else
      ((c :: cs).takeWhile (fun x => !delimChar x)) ::
        splitRunsF fuel ((c :: cs).dropWhile (fun x => !delimChar x))

/-- `[p.strip() for p in re.split('[,;/\n]+', s) if p.strip()]`: the delimiter
runs split `s`; each piece is stripped and blank pieces are dropped. -/
def splitDelims (s : String) : List String :=
  (((splitRunsF s.data.length s.data).map (fun r => chTrim r)).filter
    (fun r => !r.isEmpty)).map (fun r => ⟨r⟩)

/-- `part.replace('×', 'x')`: both sides are single characters, so the
replacement is a character map. -/
def normalizeX (s : String) : String :=
  ⟨s.data.map (fun c => if c == '×' then 'x' else c)⟩

/-- Remove every occurrence of `pat` (Python `s.replace(pat, '')`), fuelled by
the length of `s` so that it reduces by `decide`. -/
def removeAllF : Nat → List Char → List Char → List Char
  | 0, _, s => s
  | _, [], s => s
  | _ + 1, _, [] => []
  | fuel + 1, pat, c :: cs =>
    if chStarts pat (c :: cs) then removeAllF fuel pat ((c :: cs).drop pat.length)
    else c :: removeAllF fuel pat cs

/-- Python `s.replace(pat, '')` for a non-empty `pat`. -/
def removeAll (pat s : String) : String :=
  ⟨removeAllF s.data.length pat.data s.data⟩

/-- Remove the first occurrence of `pat` (JS `s.replace(pat, '')` on a string
pattern replaces only the first occurrence). -/
def replFirst (pat : List Char) : List Char → List Char
  | [] => []
  | c :: cs =>
    if chStarts pat (c :: cs) then (c :: cs).drop pat.length
    else c :: replFirst pat cs

/-- JS `String.prototype.replace` with a string pattern and empty replacement. -/
def jsReplaceFirst (s pat : String) : String := ⟨replFirst pat.data s.data⟩

/-- JS `String.prototype.trim` (ASCII whitespace as used by the data). -/
def jsTrim (s : String) : String := ⟨chTrim s.data⟩

/-- JS `String.prototype.startsWith`. -/
def jsStarts (pat s : String) : Bool := chStarts pat.data s.data

/-! ## The quantity regexes of `_parse_material_text`

`_parse_material_text` runs `re.search(pattern, text, re.IGNORECASE)` over
five patterns in order.  Each pattern is a sequence of the following atoms. -/

/-- One atom of the source's regexes. -/
inductive Elem where
  /-- a literal character, matched case-insensitively (`re.IGNORECASE`) -/
  | litCI (c : Char)
  /-- `\s*` (greedy, backtracks from the longest run) -/
  | ws
  /-- `(.+?)` — lazy capture, grows from length 1 -/
  | lazyAny
  /-- `(.+)` — greedy capture, shrinks from the longest run -/
  | greedyAny
  /-- `(\d+)` — greedy digit capture -/
  | digits
deriving DecidableEq, Repr

/-- Length of the maximal prefix of `l` satisfying `p`. -/
def runLen (p : Char → Bool) : List Char → Nat
  | [] => 0
  | c :: cs => if p c then runLen p cs + 1 else 0

/-- Backtracking matcher for a sequence of atoms against a prefix of `s`,
returning the captures of the first match in Python's backtracking order.
The fuel argument equals the number of atoms, so the recursion is structural
and the function reduces inside the kernel. -/
def matchEsF : Nat → List Elem → List Char → Option (List (List Char))
  | _, [], _ => some []
  | 0, _ :: _, _ => none
  | fuel + 1, .litCI ch :: es, s =>
    match s with
    | [] => none
    | c :: cs => if c.toLower == ch.toLower then matchEsF fuel es cs else none
  | fuel + 1, .ws :: es, s =>
    ((List.range (runLen pySpaceChar s + 1)).reverse).findSome?
      (fun k => matchEsF fuel es (s.drop k))
  | fuel + 1, .lazyAny :: es, s =>
    (List.range' 1 (runLen nonNLChar s)).findSome?
      (fun k => (matchEsF fuel es (s.drop k)).map (fun caps => s.take k :: caps))
  | fuel + 1, .greedyAny :: es, s =>
    ((List.range' 1 (runLen nonNLChar s)).reverse).findSome?
      (fun k => (matchEsF fuel es (s.drop k)).map (fun caps => s.take k :: caps))
  | fuel + 1, .digits :: es, s =>
    ((List.range' 1 (runLen digitChar s)).reverse).findSome?
      (fun k => (matchEsF fuel es (s.drop k)).map (fun caps => s.take k :: caps))

/-- Match a whole atom sequence starting exactly here. -/
def matchEs (es : List Elem) (s : List Char) : Option (List (List Char)) :=
  matchEsF es.length es s

/-- `re.search`: try every start position from the left; the first position
admitting a match wins. -/
def reSearch (es : List Elem) (s : List Char) : Option (List (List Char)) :=
  (List.range (s.length + 1)).findSome? (fun i => matchEs es (s.drop i))

/-- `r'(.+?):\s*(\d+)'` — `Material: 5`. -/
def pat1 : List Elem := [.lazyAny, .litCI ':', .ws, .digits]

/-- `r'(.+?)\s*\((\d+)\)'` — `Material (5)`. -/
def pat2 : List Elem := [.lazyAny, .ws, .litCI '(', .digits, .litCI ')']

/-- `r'(.+?)\s*x\s*(\d+)'` — `Material x5`. -/
def pat3 : List Elem := [.lazyAny, .ws, .litCI 'x', .ws, .digits]

/-- `r'(\d+)\s*x\s*(.+)'` — `5x Material` (quantity first). -/
def pat4 : List Elem := [.digits, .ws, .litCI 'x', .ws, .greedyAny]

/-- `r'(.+?)\s*-\s*(\d+)'` — `Material - 5`. -/
def pat5 : List Elem := [.lazyAny, .ws, .litCI '-', .ws, .digits]

/-- The pattern list of `_parse_material_text`, in source order. -/
def patternList : List (List Elem) := [pat1, pat2, pat3, pat4, pat5]

/-- Stripped text of capture group `i` (Python `groups[i].strip()`). -/
def capName (caps : List (List Char)) (i : Nat) : String :=
  ⟨chTrim (caps.getD i [])⟩

/-- Numeric value of capture group `i` (Python `int(groups[i])`). -/
def capNum (caps : List (List Char)) (i : Nat) : Nat :=
  digitsVal (caps.getD i [])

/-- Result `_parse_material_text` would produce had only pattern `i` (0-based)
been tried: search, then interpret the two groups, reordering them for the
`QUANTITY x NAME` pattern (index 3). -/
def patResult (i : Nat) (text : String) : Option (String × Nat) :=
  match patternList.get? i with
  | none => none
  | some p =>
    match reSearch p text.data with
    | none => none
    | some caps =>
      if i == 3 then some (capName caps 1, capNum caps 0)
      else some (capName caps 0, capNum caps 1)

/-- `_parse_material_text`: try the five patterns in order, first match wins;
`(None, None)` becomes `none`. -/
def parse_material_text (text : String) : Option (String × Nat) :=
  match patResult 0 text with
  | some r => some r
  | none =>
    match patResult 1 text with
    | some r => some r
    | none =>
      match patResult 2 text with
      | some r => some r
      | none =>
        match patResult 3 text with
        | some r => some r
        | none => patResult 4 text

/-- `_parse_quantity`: `re.search(r'(\d+)', text)` — the first (leftmost,
maximal) digit run, or `None`. -/
def parse_quantity (s : String) : Option Nat :=
  match (List.range (s.data.length + 1)).findSome?
      (fun i =>
        let rest := s.data.drop i
        if runLen digitChar rest = 0 then none
        else some (rest.take (runLen digitChar rest))) with
  | some run => some (digitsVal run)
  | none => none

/-! ## Data model -/

/-- A material obtained from recycling an item (`Material` dataclass). -/
structure Material where
  name : String
  quantity : Nat
deriving DecidableEq, Repr

/-- An entry of an item-links list (`{'name','category','url'}` dict). -/
structure ItemInfo where
  name : String
  category : String
  url : String
deriving DecidableEq, Repr

/-- A game item (`Item` dataclass). -/
structure Item where
  name : String
  category : String
  url : String
  materials : List Material
deriving DecidableEq, Repr

/-- A failure record `{'name','url','error'}`. -/
structure FailureRecord where
  name : String
  url : String
  error : String
deriving DecidableEq, Repr

/-- The `metadata` object of a produced catalog.  `scraped_at` and
`elapsed_seconds` come from the wall clock and are threaded through as
parameters of the run. -/
structure Metadata where
  version : String
  scraped_at : String
  total_items : Nat
  categories_count : Nat
  elapsed_seconds : Nat
  failed_categories : Nat
  failed_items : Nat
deriving DecidableEq, Repr

/-- A produced catalog: insertion-ordered category map plus metadata. -/
structure Catalog where
  categories : List (String × List Item)
  metadata : Metadata
deriving DecidableEq, Repr

/-! ## `retry_with_backoff` -/

/-- `backoff_delays[attempt] if attempt < len(backoff_delays) else
backoff_delays[-1]`: the delay slept before retrying after failed attempt
`attempt`.  `none` corresponds to Python's `IndexError` on an empty schedule,
which no call site can reach. -/
def delayAt {δ : Type} (delays : List δ) (attempt : Nat) : Option δ :=
  if attempt < delays.length then delays.get? attempt else delays.getLast?

/-- The retry loop: `attempt` is the index of the current invocation, the
second argument the number of retries still allowed.  The result records the
returned/raised value, the number of invocations of the wrapped operation,
and the sequence of sleeps taken, in order. -/
def retryGo {ε α δ : Type} (op : Nat → Except ε α) (delays : List δ) :
    Nat → Nat → Except ε α × Nat × List (Option δ)
  | attempt, 0 => (op attempt, 1, [])
  | attempt, rem + 1 =>
    match op attempt with
    | .ok a => (.ok a, 1, [])
    | .error _ =>
      let r := retryGo op delays (attempt + 1) rem
      (r.1, r.2.1 + 1, delayAt delays attempt :: r.2.2)

/-- `retry_with_backoff(max_retries, backoff_delays)` applied to an operation
whose behaviour on its `k`-th invocation is `op k`. -/
def retry_with_backoff {ε α δ : Type} (maxRetries : Nat) (delays : List δ)
    (op : Nat → Except ε α) : Except ε α × Nat × List (Option δ) :=
  retryGo op delays 0 maxRetries

/-! ## Provenance tagging (`_scrape_loot_item`) and untagging
(`embed_javascript`'s `buildItems`) -/

/-- `_scrape_loot_item` lines 234–242: recycling materials are copied, each
salvaging material's name receives the `"(Salvage) "` prefix, and the two
lists are flattened in that order. -/
def tagMaterials (recycling salvaging : List Material) : List Material :=
  recycling.map (fun m => { m with name := m.name }) ++
    salvaging.map (fun m => { m with name := "(Salvage) " ++ m.name })

/-- The display layer's untagging (`buildItems` in the generated JS): a
material whose name starts with `"(Salvage)"` goes to the salvaging list with
`name.replace('(Salvage) ', '').trim()`, anything else to the recycling list.
(JS also guards on `m.name` being truthy; the empty string never starts with
the non-empty prefix, so that guard is subsumed.) -/
def untagMaterials : List Material → List Material × List Material
  | [] => ([], [])
  | m :: ms =>
    let r := untagMaterials ms
    if jsStarts "(Salvage)" m.name then
      (r.1, ⟨jsTrim (jsReplaceFirst m.name "(Salvage) "), m.quantity⟩ :: r.2)
    else
      (⟨m.name, m.quantity⟩ :: r.1, r.2)

/-! ## `save_to_json` as a file-system transition

The relevant state is the content of the destination path and of the sibling
temporary path.  A run executes: write the temp file, remove a pre-existing
destination, rename temp to destination.  A fault makes one of those steps
raise (`PermissionError` or any other exception); the handlers of the source
then run: `except PermissionError` re-raises with no cleanup, the generic
handler removes the temp file and re-raises. -/

/-- Content of the destination file and of the `.tmp` sibling. -/
structure FS where
  dest : Option String
  tmp : Option String
deriving DecidableEq, Repr

/-- Which exception class a failing step raises. -/
inductive ErrKind where
  | perm
  | other
deriving DecidableEq, Repr

/-- Fault injection site for one `save_to_json` run.  `duringWrite` leaves a
partially written temp file behind before raising. -/
inductive SaveFault where
  | noFault
  | duringWrite (k : ErrKind) (partialContent : String)
  | duringRemove (k : ErrKind)
  | duringRename (k : ErrKind)
deriving DecidableEq, Repr

/-- The two exception handlers of `save_to_json`: `except PermissionError`
logs and re-raises (no cleanup); the generic `except Exception` removes the
temp file if present, then re-raises. -/
def pyHandle (k : ErrKind) (fs : FS) : Option ErrKind × FS :=
  match k with
  | .perm => (some .perm, fs)
  | .other => (some .other, { fs with tmp := none })

/-- `save_to_json` (scraper.py lines 681–721): write `content` to the temp
path, `os.remove` a pre-existing destination, `os.rename` temp onto the
destination.  Returns the raised exception kind (if any) and the final file
states. -/
def save_to_json (fs0 : FS) (content : String) (fault : SaveFault) :
    Option ErrKind × FS :=
  match fault with
  | .duringWrite k part => pyHandle k { fs0 with tmp := some part }
  | _ =>
    let fs1 : FS := { fs0 with tmp := some content }
    match fs0.dest, fault with
    | some _, .duringRemove k => pyHandle k fs1
    | _, _ =>
      let fs2 : FS := { fs1 with dest := none }
      match fault with
      | .duringRename k => pyHandle k fs2
      | _ => (none, { dest := some content, tmp := none })

/-! ## The document model

`Dom` is a first-child/next-sibling encoding of an HTML forest: `node` carries
a tag, its attributes, its children forest and its following siblings;
`text` is a `NavigableString` followed by its siblings.  Document order
(`bs4`'s `next_elements`, used by `find_next` and `find_all`) is: the node
itself, then its subtree, then its following siblings. -/

inductive Dom where
  | nil : Dom
  | text : String → Dom → Dom
  | node : String → List (String × String) → Dom → Dom → Dom
deriving DecidableEq, Repr

/-- Children forest of the head node. -/
def childrenForest : Dom → Dom
  | .node _ _ c _ => c
  | _ => .nil

/-- All `NavigableString`s of a forest, in document order. -/
def domStrings : Dom → List String
  | .nil => []
  | .text s r => s :: domStrings r
  | .node _ _ c r => domStrings c ++ domStrings r

/-- Strings of the head node's subtree only. -/
def headStrings : Dom → List String
  | .nil => []
  | .text s _ => [s]
  | .node _ _ c _ => domStrings c

/-- `el.get_text(strip=True)`: each descendant string stripped, blanks
dropped, the rest concatenated (default separator `''`). -/
def getTextStrip (d : Dom) : String :=
  String.join (((headStrings d).map pyStrip).filter (fun s => !s.isEmpty))

/-- `el.get_text(" ", strip=True)`: as above with separator `" "`. -/
def getTextSepSp (d : Dom) : String :=
  String.intercalate " " (((headStrings d).map pyStrip).filter (fun s => !s.isEmpty))

/-- `find_all` restricted to a tag list: every element of the forest whose tag
is in `tags`, in document order, detached from its siblings (the subtree is
kept — that is all the callers use). -/
def findTagF (tags : List String) : Dom → List Dom
  | .nil => []
  | .text _ r => findTagF tags r
  | .node t a c r =>
    (if tags.contains t then [Dom.node t a c Dom.nil] else []) ++
      findTagF tags c ++ findTagF tags r

/-- `el.find(tags)`: first match in document order. -/
def firstTagF (tags : List String) (d : Dom) : Option Dom :=
  (findTagF tags d).head?

/-- First value of attribute `k`. -/
def attrLookup (k : String) : List (String × String) → Option String
  | [] => none
  | (a, v) :: r => if a == k then some v else attrLookup k r

/-- `link['href']` (defaulting to `""`; every harvested link has the
attribute, `find_all('a', href=True)` guarantees it). -/
def hrefOf : Dom → String
  | .node _ attrs _ _ => (attrLookup "href" attrs).getD ""
  | _ => ""

/-- `find_all('a', href=True)` over a forest, in document order. -/
def findLinksF : Dom → List Dom
  | .nil => []
  | .text _ r => findLinksF r
  | .node t a c r =>
    (if t == "a" && (attrLookup "href" a).isSome then [Dom.node t a c Dom.nil]
     else []) ++ findLinksF c ++ findLinksF r

/-- The `find_next()` chain of a forest: every node (elements and strings) in
document order, detached. -/
def preorderNodes : Dom → List Dom
  | .nil => []
  | .text s r => Dom.text s Dom.nil :: preorderNodes r
  | .node t a c r => Dom.node t a c Dom.nil :: (preorderNodes c ++ preorderNodes r)

/-- The head node is a level 2–4 heading element. -/
def isHeadingN : Dom → Bool
  | .node t _ _ _ => t == "h2" || t == "h3" || t == "h4"
  | _ => false

/-! ## Material extraction helpers (`_extract_from_*`) -/

/-- Keep a parsed pair only when the name is non-empty and a quantity was
found (`if material and quantity is not None`). -/
def keepParsed (r : Option (String × Nat)) : List Material :=
  match r with
  | some (n, q) => if n == "" then [] else [⟨n, q⟩]
  | none => []

/-- `_extract_from_table`: skip the header row; for each row with at least two
cells take `cells[0]` text as the name and the first integer of `cells[1]`
text as the quantity. -/
def extract_from_table (tbl : Dom) : List Material :=
  match findTagF ["tr"] (childrenForest tbl) with
  | [] => []
  | _ :: rest =>
    rest.flatMap (fun row =>
      match findTagF ["td", "th"] (childrenForest row) with
      | c0 :: c1 :: _ =>
        let nm := getTextStrip c0
        match parse_quantity (getTextStrip c1) with
        | some q => if nm == "" then [] else [⟨nm, q⟩]
        | none => []
      | _ => [])

/-- `_extract_from_list`: parse each `li`'s stripped text. -/
def extract_from_list (lst : Dom) : List Material :=
  (findTagF ["li"] (childrenForest lst)).flatMap
    (fun it => keepParsed (parse_material_text (getTextStrip it)))

/-- `_extract_from_text`: split the element's stripped text on newlines and
parse each line. -/
def extract_from_text (el : Dom) : List Material :=
  ((splitChar '\n' (getTextStrip el).data).map (fun l => (⟨l⟩ : String))).flatMap
    (fun line => keepParsed (parse_material_text line))

/-! ## The labeled-column table path of `_extract_section_materials` -/

/-- `any('recycl' in kw for kw in keywords)`. -/
def wantRec (kws : List String) : Bool := kws.any (fun kw => strIn "recycl" kw)

/-- `any('salvag' in kw for kw in keywords)`. -/
def wantSalv (kws : List String) : Bool := kws.any (fun kw => strIn "salvag" kw)

/-- Index of the **last** header cell satisfying `p` (the Python loop
overwrites the index on every match). -/
def lastIdxWith (p : String → Bool) (l : List String) : Option Nat :=
  (l.foldl (fun (acc : Option Nat × Nat) s =>
    (if p s then some acc.2 else acc.1, acc.2 + 1)) (none, 0)).1

/-- One comma/semicolon/slash/newline-separated segment of a labeled cell:
normalize `×` to `x`, parse, keep only named results. -/
def parseCellPart (part : String) : List Material :=
  keepParsed (parse_material_text (normalizeX part))

/-- All materials of one labeled cell: `get_text(" ", strip=True)`, split into
segments, parse each. -/
def parseCell (cell : Dom) : List Material :=
  (splitDelims (getTextSepSp cell)).flatMap parseCellPart

/-- The data-row loop of the labeled-column table branch: for each row, the
recycling column is parsed when in range and
`want_recycling or not want_salvaging`, then the salvaging column when in
range and `want_salvaging or not want_recycling`. -/
def processRows (kws : List String) (ridx sidx : Option Nat) :
    List Dom → List Material
  | [] => []
  | row :: rs =>
    let cells := findTagF ["td", "th"] (childrenForest row)
    let recMs :=
      match ridx with
      | some i =>
        if i < cells.length && (wantRec kws || !wantSalv kws) then
          parseCell (cells.getD i Dom.nil)
        else []
      | none => []
    let salvMs :=
      match sidx with
      | some j =>
        if j < cells.length && (wantSalv kws || !wantRec kws) then
          parseCell (cells.getD j Dom.nil)
        else []
      | none => []
    recMs ++ salvMs ++ processRows kws ridx sidx rs

/-! ## `_extract_section_materials` -/

/-- What the walk does at one node of the `find_next` chain. -/
inductive StepAct where
  /-- another level 2–4 heading: break -/
  | stop
  /-- a labeled recycling/salvaging table: emit its materials and return -/
  | stopWith (ms : List Material)
  /-- contribute `ms` and continue walking -/
  | emit (ms : List Material)
deriving Repr

/-- Classification of one node by the body of the `while True` loop of
`_extract_section_materials`: headings break; a table is processed as a
labeled-column table when its header mentions recycling/salvaging (then the
loop returns early) and otherwise contributes nothing; lists are parsed;
`div`/`p`/`section` containers are searched one level for a table or a list
before falling back to their raw text; any other node is skipped. -/
def nodeAct (kws : List String) (n : Dom) : StepAct :=
  match n with
  | .node t _ c _ =>
    if t == "h2" || t == "h3" || t == "h4" then .stop
    else if t == "table" then
      match findTagF ["tr"] c with
      | [] => .emit []
      | r0 :: rs =>
        let hdr := (findTagF ["th", "td"] (childrenForest r0)).map
          (fun cd => lowerStr (getTextStrip cd))
        let ridx := lastIdxWith (fun s => strIn "recycling" s) hdr
        let sidx := lastIdxWith (fun s => strIn "salvag" s) hdr
        if ridx.isSome || sidx.isSome then .stopWith (processRows kws ridx sidx rs)
        else .emit []
    else if t == "ul" || t == "ol" then .emit (extract_from_list n)
    else if t == "div" || t == "p" || t == "section" then
      match firstTagF ["table"] c with
      | some tb => .emit (extract_from_table tb)
      | none =>
        match firstTagF ["ul", "ol"] c with
        | some ls => .emit (extract_from_list ls)
        | none => .emit (extract_from_text n)
    else .emit []
  | _ => .emit []

/-- The `while True` walk over the `find_next` chain after the heading. -/
def walkLoop (kws : List String) : List Dom → List Material
  | [] => []
  | n :: rest =>
    match nodeAct kws n with
    | .stop => []
    | .stopWith ms => ms
    | .emit ms => ms ++ walkLoop kws rest

/-- Heading match of `_extract_section_materials`: a level 2–4 heading whose
stripped, lowered text contains one of the keywords. -/
def headingMatches (kws : List String) (d : Dom) : Bool :=
  isHeadingN d && kws.any (fun kw => strIn kw (lowerStr (getTextStrip d)))

/-- Scan the document-order node list for the first matching heading and
return the remainder of the chain after it. -/
def afterHeading (kws : List String) : List Dom → Option (List Dom)
  | [] => none
  | n :: rest => if headingMatches kws n then some rest else afterHeading kws rest

/-- `_extract_section_materials`: locate the heading, then walk the
`find_next` chain (full document order, so it descends into containers)
until a heading or a labeled table ends the walk. -/
def extract_section_materials (doc : Dom) (kws : List String) : List Material :=
  match afterHeading kws (preorderNodes doc) with
  | none => []
  | some rest => walkLoop kws rest

/-! ## `extract_recycling_data` (category mode) -/

/-- Its heading predicate: text contains both `'recycled'` and `'salvaged'`. -/
def isRSHeading (d : Dom) : Bool :=
  isHeadingN d &&
    (strIn "recycled" (lowerStr (getTextStrip d)) &&
     strIn "salvaged" (lowerStr (getTextStrip d)))

/-- Find the first matching heading in document order and return its
following-sibling forest (what `find_next_sibling` then iterates). -/
def rsSiblings : Dom → Option Dom
  | .nil => none
  | .text _ r => rsSiblings r
  | .node t a c r =>
    if isRSHeading (Dom.node t a c Dom.nil) then some r
    else
      match rsSiblings c with
      | some x => some x
      | none => rsSiblings r

/-- The sibling walk of `extract_recycling_data`: stop at a sibling heading;
tables, lists and `div`/`p` contribute; every other sibling (including
containers such as `section`, whose children are never visited) is skipped. -/
def sibWalk : Dom → List Material
  | .nil => []
  | .text _ r => sibWalk r
  | .node t a c r =>
    if t == "h2" || t == "h3" || t == "h4" then []
    else
      (if t == "table" then extract_from_table (Dom.node t a c Dom.nil)
       else if t == "ul" || t == "ol" then extract_from_list (Dom.node t a c Dom.nil)
       else if t == "div" || t == "p" then extract_from_text (Dom.node t a c Dom.nil)
       else []) ++ sibWalk r

/-- `extract_recycling_data`: locate the "Recycled & Salvaged" heading, then
iterate its direct siblings only. -/
def extract_recycling_data (doc : Dom) : List Material :=
  match rsSiblings doc with
  | none => []
  | some sibs => sibWalk sibs

/-- Concatenation of two forests at the top level (used to state boundary
properties of the walks). -/
def fcat : Dom → Dom → Dom
  | .nil, d => d
  | .text s r, d => Dom.text s (fcat r d)
  | .node t a c r, d => Dom.node t a c (fcat r d)

/-- No top-level node of the forest is a level 2–4 heading. -/
def topNoHeading : Dom → Bool
  | .nil => true
  | .text _ r => topNoHeading r
  | .node t _ _ r => !(t == "h2" || t == "h3" || t == "h4") && topNoHeading r

/-! ## Link discovery -/

/-- `self.base_url + href if href.startswith('/') else href`. -/
def resolveUrl (base href : String) : String :=
  if chStarts "/".data href.data then base ++ href else href

/-- The fallback scan of `scrape_loot` (no table on the page): keep wiki
links without namespace separators or anchors, de-duplicated by `href`,
first occurrence wins. -/
def lootScan : List Dom → List String → List Dom
  | [], _ => []
  | l :: ls, seen =>
    let h := hrefOf l
    if !chStarts "/wiki/".data h.data || h.data.contains ':' || h.data.contains '#' then
      lootScan ls seen
    else if seen.contains h then lootScan ls seen
    else l :: lootScan ls (h :: seen)

/-- Link candidates of the Loot page (`scrape_loot` lines 136–171): if the
content region has a table, take each non-header row's first `td`'s first
link when its href is a wiki path; otherwise fall back to `lootScan`. -/
def lootLinkCandidates (content : Dom) : List Dom :=
  match firstTagF ["table"] content with
  | some tbl =>
    ((findTagF ["tr"] (childrenForest tbl)).drop 1).filterMap (fun row =>
      match findTagF ["td"] (childrenForest row) with
      | [] => none
      | c0 :: _ =>
        match findLinksF (childrenForest c0) with
        | [] => none
        | l :: _ =>
          if chStarts "/wiki/".data (hrefOf l).data then some l else none)
  | none => lootScan (findLinksF content) []

/-- `scrape_loot` lines 174–183: build the item info of a candidate link;
`item_name = link.get_text(strip=True) or full_url`. -/
def lootInfoOf (base : String) (l : Dom) : ItemInfo :=
  let full := resolveUrl base (hrefOf l)
  let t := getTextStrip l
  ⟨if t == "" then full else t, "Loot", full⟩

/-- All item infos the Loot page run will attempt. -/
def lootItemInfos (base : String) (content : Dom) : List ItemInfo :=
  (lootLinkCandidates content).map (lootInfoOf base)

/-- The link loop of `_scrape_category_with_retry` (lines 427–451): skip
non-wiki/namespace/anchor links and the category page itself; resolve and
de-duplicate by full URL (the URL is marked seen *before* the text check);
append a candidate only when the visible text is non-empty. -/
def catScan (base catPath cname : String) : List Dom → List String → List ItemInfo
  | [], _ => []
  | l :: ls, seen =>
    let h := hrefOf l
    if !chStarts "/wiki/".data h.data || h.data.contains ':' || h.data.contains '#' then
      catScan base catPath cname ls seen
    else if h == catPath then catScan base catPath cname ls seen
    else
      let full := resolveUrl base h
      if seen.contains full then catScan base catPath cname ls seen
      else
        let nm := getTextStrip l
        (if nm == "" then [] else [(⟨nm, cname, full⟩ : ItemInfo)]) ++
          catScan base catPath cname ls (full :: seen)

/-- Category-page link discovery: scan all links of the content region.
`catPath` is `category_url.replace(self.base_url, '')`. -/
def scrape_category_links (base catUrl cname : String) (content : Dom) :
    List ItemInfo :=
  catScan base (removeAll base catUrl) cname (findLinksF content) []

/-! ## Per-item orchestration and aggregation

The network fetch plus section extraction of one item is summarised by an
oracle `ItemInfo → Except String (List Material)`: `.ok ms` is a successful
extraction (possibly empty), `.error e` a retry-exhausted or parse failure
with message `e`. -/

/-- `scrape_item_page`: on success build the item from the extracted
materials; on failure append one failure record and return the item with an
empty materials list. -/
def scrape_item_page (failed : List FailureRecord) (info : ItemInfo)
    (res : Except String (List Material)) : Item × List FailureRecord :=
  match res with
  | .ok ms => (⟨info.name, info.category, info.url, ms⟩, failed)
  | .error e =>
    (⟨info.name, info.category, info.url, []⟩, failed ++ [⟨info.name, info.url, e⟩])

/-- The item loop of a category: every link yields an item. -/
def runItems (itemO : ItemInfo → Except String (List Material)) :
    List ItemInfo → List FailureRecord → List Item × List FailureRecord
  | [], failed => ([], failed)
  | i :: is, failed =>
    let r := scrape_item_page failed i (itemO i)
    let rest := runItems itemO is r.2
    (r.1 :: rest.1, rest.2)

/-- The item loop of `scrape_loot` (lines 186–192): a successful item is
appended; a failed one is only recorded — it does **not** enter the catalog. -/
def lootRun (itemO : ItemInfo → Except String (List Material)) :
    List ItemInfo → List FailureRecord → List Item × List FailureRecord
  | [], failed => ([], failed)
  | i :: is, failed =>
    match itemO i with
    | .ok ms =>
      let rest := lootRun itemO is failed
      ((⟨i.name, i.category, i.url, ms⟩ : Item) :: rest.1, rest.2)
    | .error e => lootRun itemO is (failed ++ [⟨i.name, i.url, e⟩])

/-- The fixed category set of the scraper. -/
def CATEGORIES : List (String × String) :=
  [("Weapons", "https://arcraiders.wiki/wiki/Weapons"),
   ("Augments", "https://arcraiders.wiki/wiki/Augments"),
   ("Shields", "https://arcraiders.wiki/wiki/Shields"),
   ("Healing", "https://arcraiders.wiki/wiki/Healing"),
   ("Quick Use", "https://arcraiders.wiki/wiki/Quick_Use"),
   ("Grenades", "https://arcraiders.wiki/wiki/Grenades"),
   ("Traps", "https://arcraiders.wiki/wiki/Traps")]

/-- The category loop of `scrape_all_categories`.  `linkO cname curl` is the
outcome of `scrape_category`'s retried link discovery: `.ok` carries the
`(name, url)` pairs (each dict also stores `category = cname`), `.error` the
message recorded when retries are exhausted (that category contributes zero
items).  Returns the category map, the item counter, and the failure lists. -/
def runCategories (linkO : String → String → Except String (List (String × String)))
    (itemO : ItemInfo → Except String (List Material)) :
    List (String × String) → List FailureRecord → List FailureRecord →
      List (String × List Item) × Nat × List FailureRecord × List FailureRecord
  | [], fc, fi => ([], 0, fc, fi)
  | (cname, curl) :: cs, fc, fi =>
    let disc :=
      match linkO cname curl with
      | .ok ls => (ls.map (fun (p : String × String) => (⟨p.1, cname, p.2⟩ : ItemInfo)), fc)
      | .error e => ([], fc ++ [(⟨cname, curl, e⟩ : FailureRecord)])
    let itemsR := runItems itemO disc.1 fi
    let rest := runCategories linkO itemO cs disc.2 itemsR.2
    ((cname, itemsR.1) :: rest.1, itemsR.1.length + rest.2.1, rest.2.2)

/-- `scrape_all_categories`: reset the failure lists, run every category,
assemble metadata.  Returns the catalog and the final failure lists. -/
def scrape_all_categories
    (linkO : String → String → Except String (List (String × String)))
    (itemO : ItemInfo → Except String (List Material))
    (scrapedAt : String) (elapsed : Nat) :
    Catalog × List FailureRecord × List FailureRecord :=
  let r := runCategories linkO itemO CATEGORIES [] []
  (⟨r.1, ⟨"1.0", scrapedAt, r.2.1, CATEGORIES.length, elapsed,
          r.2.2.1.length, r.2.2.2.length⟩⟩, r.2.2.1, r.2.2.2)

/-- `scrape_loot`: discover the loot links, run the item loop (the failure
lists are *not* reset in this mode, hence the initial lists), assemble the
single-category catalog. -/
def scrape_loot (base : String) (content : Dom)
    (itemO : ItemInfo → Except String (List Material))
    (initFC initFI : List FailureRecord)
    (scrapedAt : String) (elapsed : Nat) :
    Catalog × List FailureRecord × List FailureRecord :=
  let r := lootRun itemO (lootItemInfos base content) initFI
  (⟨[("Loot", r.1)], ⟨"1.0", scrapedAt, r.1.length, 1, elapsed,
     initFC.length, r.2.length⟩⟩, initFC, r.2)

/-- Key set of a catalog's category mapping. -/
def keyNames (c : Catalog) : List String := c.categories.map (fun p => p.1)

/-- The catalog invariants of the data model: every item's category is the
key it is filed under (hence a key of the mapping), `total_items` is the sum
of the per-category item counts, and the `failed_*` counters equal the
lengths of the failure-record lists. -/
def catalogInv (c : Catalog) (fc fi : List FailureRecord) : Bool :=
  c.categories.all (fun p => p.2.all
      (fun it => it.category == p.1 && (keyNames c).contains it.category)) &&
    (c.metadata.total_items == (c.categories.map (fun p => p.2.length)).sum) &&
    (c.metadata.failed_categories == fc.length) &&
    (c.metadata.failed_items == fi.length)

/-! ## Concrete keyword lists and fixture documents -/

/-- The salvaging keyword list passed by `_scrape_loot_item`. -/
def salvKeywords : List String := ["salvaging", "salvaged", "salvaging results"]

/-- The recycling keyword list passed by `_scrape_loot_item`. -/
def recKeywords : List String := ["recycling", "recycled", "recycling results"]

/-- An item page whose section content (a two-column table) is wrapped in a
`section` container following the heading, as the spec's traversal contract
describes. -/
def c4doc : Dom :=
  .node "h2" [] (.text "Recycled and Salvaged Materials" .nil)
    (.node "section" []
      (.node "table" []
        (.node "tr" []
            (.node "th" [] (.text "Material" .nil) (.node "th" [] (.text "Qty" .nil) .nil))
            (.node "tr" []
               (.node "td" [] (.text "Steel" .nil) (.node "td" [] (.text "5" .nil) .nil))
               .nil))
        .nil)
      .nil)

/-- An item page where a labeled salvaging table is followed by a list and
then by the next heading, all inside one section. -/
def c4doc2 : Dom :=
  .node "h2" [] (.text "Salvaging results" .nil)
    (.node "table" []
      (.node "tr" [] (.node "th" [] (.text "Salvaging results" .nil) .nil)
        (.node "tr" [] (.node "td" [] (.text "Scrap x1" .nil) .nil) .nil))
      (.node "ul" [] (.node "li" [] (.text "Steel: 5" .nil) .nil)
        (.node "h2" [] (.text "Notes" .nil) .nil)))

/-- A container sibling contributing one parsed line, for the sibling-walk
boundary witness. -/
def c4sibs : Dom :=
  .node "p" [] (.text "Steel: 5" .nil) .nil

/-- A detached heading node. -/
def c4heading : Dom :=
  .node "h2" [] (.text "Notes" .nil) .nil

/-- The labeled two-column table scenario of the spec (§8): header cells
"Recycling results" / "Salvaging results" with one data row. -/
def c6doc : Dom :=
  .node "h2" [] (.text "Recycling and Salvaging results" .nil)
    (.node "table" []
      (.node "tr" []
         (.node "th" [] (.text "Recycling results" .nil)
            (.node "th" [] (.text "Salvaging results" .nil) .nil))
         (.node "tr" []
            (.node "td" [] (.text "Steel x5, Electronics x2" .nil)
               (.node "td" [] (.text "Scrap x1" .nil) .nil))
            .nil))
      .nil)

/-- The data row of `c6doc`, detached. -/
def c6row : Dom :=
  .node "tr" []
    (.node "td" [] (.text "Steel x5, Electronics x2" .nil)
       (.node "td" [] (.text "Scrap x1" .nil) .nil))
    .nil

/-- One loot candidate whose extraction fails. -/
def c5info : ItemInfo :=
  ⟨"Rusty Fan", "Loot", "https://arcraiders.wiki/wiki/Rusty_Fan"⟩

/-- A Loot page whose table row holds a hyperlink with no visible text. -/
def c9doc : Dom :=
  .node "table" []
    (.node "tr" [] (.node "th" [] (.text "Item" .nil) .nil)
      (.node "tr" []
         (.node "td" [] (.node "a" [("href", "/wiki/Foo")] .nil .nil) .nil) .nil))
    .nil

/-- A table-less Loot page whose only link has no visible text. -/
def c9doc2 : Dom :=
  .node "p" [] (.node "a" [("href", "/wiki/Bar")] .nil .nil) .nil

/-- A category-page link with non-empty visible text. -/
def c9goodLink : Dom :=
  .node "a" [("href", "/wiki/Bar")] (.text "Bar" .nil) .nil

/-- A list whose single entry uses the multiplication glyph. -/
def c10ul : Dom :=
  .node "ul" [] (.node "li" [] (.text "Polymer ×3" .nil) .nil) .nil

/-! ## Helper lemmas -/

theorem chStarts_append_self : ∀ (p t : List Char), chStarts p (p ++ t) = true := by
  intro p t
  induction p with
  | nil => rfl
  | cons c cs ih => simp [chStarts, ih]

theorem drop_len_append : ∀ (p t : List Char), (p ++ t).drop p.length = t := by
  intro p t
  induction p with
  | nil => rfl
  | cons c cs ih => simp [ih]

theorem replFirst_append_self : ∀ (p t : List Char), replFirst p (p ++ t) = t := by
  intro p t
  match p, t with
  | [], [] => rfl
  | [], c :: cs => simp [replFirst, chStarts]
  | c :: cs, t =>
    show replFirst (c :: cs) (c :: (cs ++ t)) = t
    rw [replFirst]
    have h : chStarts (c :: cs) (c :: (cs ++ t)) = true := chStarts_append_self (c :: cs) t
    rw [h]
    simp [drop_len_append cs t]

theorem contains_of_mem_str : ∀ (l : List String) (a : String), a ∈ l → l.contains a = true := by
  intro l a h
  induction l with
  | nil => cases h
  | cons b bs ih =>
    rcases List.mem_cons.mp h with h1 | h2
    · subst h1; simp [List.contains, List.elem]
    · have := ih h2
      by_cases hb : a == b
      · simp [List.contains, List.elem, hb]
      · simp only [List.contains, List.elem] at this ⊢
        rw [show (a == b) = false by simpa using hb]
        exact this

theorem normalizeX_idem (s : String) : normalizeX (normalizeX s) = normalizeX s := by
  simp only [normalizeX, List.map_map]
  congr 1
  apply List.map_congr_left
  intro c _
  by_cases h : c = '×' <;> simp [Function.comp, h]

theorem lootRun_fst (o : ItemInfo → Except String (List Material)) :
    ∀ (is : List ItemInfo) (f : List FailureRecord),
      (lootRun o is f).1 = is.filterMap (fun i =>
        match o i with
        | .ok ms => some (⟨i.name, i.category, i.url, ms⟩ : Item)
        | .error _ => none) := by
  intro is
  induction is with
  | nil => intro f; rfl
  | cons i is ih =>
    intro f
    simp only [lootRun, List.filterMap_cons]
    cases h : o i with
    | ok ms => simp [h, ih]
    | error e => simp [h, ih]

theorem lootRun_snd (o : ItemInfo → Except String (List Material)) :
    ∀ (is : List ItemInfo) (f : List FailureRecord),
      (lootRun o is f).2 = f ++ is.filterMap (fun i =>
        match o i with
        | .ok _ => none
        | .error e => some (⟨i.name, i.url, e⟩ : FailureRecord)) := by
  intro is
  induction is with
  | nil => intro f; simp [lootRun]
  | cons i is ih =>
    intro f
    simp only [lootRun, List.filterMap_cons]
    cases h : o i with
    | ok ms => simp [h, ih]
    | error e => simp [h, ih]

theorem runItems_fst (o : ItemInfo → Except String (List Material)) :
    ∀ (is : List ItemInfo) (f : List FailureRecord),
      (runItems o is f).1 = is.map (fun i =>
        match o i with
        | .ok ms => (⟨i.name, i.category, i.url, ms⟩ : Item)
        | .error _ => (⟨i.name, i.category, i.url, []⟩ : Item)) := by
  intro is
  induction is with
  | nil => intro f; rfl
  | cons i is ih =>
    intro f
    simp only [runItems, List.map_cons]
    cases h : o i with
    | ok ms => simp [scrape_item_page, h, ih]
    | error e => simp [scrape_item_page, h, ih]

theorem runCategories_inv
    (lo : String → String → Except String (List (String × String)))
    (io : ItemInfo → Except String (List Material)) :
    ∀ (cs : List (String × String)) (fc fi : List FailureRecord),
      (runCategories lo io cs fc fi).2.1 =
        ((runCategories lo io cs fc fi).1.map (fun p => p.2.length)).sum ∧
      ∀ p ∈ (runCategories lo io cs fc fi).1, ∀ it ∈ p.2, it.category = p.1 := by
  intro cs
  induction cs with
  | nil =>
    intro fc fi
    exact ⟨rfl, by intro p hp; cases hp⟩
  | cons c cs ih =>
    intro fc fi
    obtain ⟨cname, curl⟩ := c
    simp only [runCategories]
    cases hl : lo cname curl with
    | ok ls =>
      simp only [hl]
      refine ⟨?_, ?_⟩
      · simp [(ih _ _).1]
      · intro p hp it hit
        rcases List.mem_cons.mp hp with h1 | h2
        · subst h1
          rw [runItems_fst] at hit
          obtain ⟨i, hi, rfl⟩ := List.mem_map.mp hit
          obtain ⟨q, _, rfl⟩ := List.mem_map.mp hi
          cases io ⟨q.1, cname, q.2⟩ <;> rfl
        · exact (ih _ _).2 p h2 it hit
    | error e =>
      simp only [hl]
      refine ⟨?_, ?_⟩
      · simp [(ih _ _).1]
      · intro p hp it hit
        rcases List.mem_cons.mp hp with h1 | h2
        · subst h1
          rw [runItems_fst] at hit
          simp at hit
        · exact (ih _ _).2 p h2 it hit

theorem untag_tagged_salv : ∀ (salv : List Material),
    (∀ m ∈ salv, jsTrim m.name = m.name) →
    untagMaterials (salv.map (fun m => { m with name := "(Salvage) " ++ m.name })) =
      ([], salv) := by
  intro salv h
  induction salv with
  | nil => rfl
  | cons m ms ih =>
    have hdata : ("(Salvage) " ++ m.name).data = "(Salvage)".data ++ (' ' :: m.name.data) := by
      obtain ⟨d⟩ := m.name
      rfl
    have hc : jsStarts "(Salvage)" ("(Salvage) " ++ m.name) = true := by
      simp only [jsStarts, hdata]
      exact chStarts_append_self _ _
    have hrepl : jsReplaceFirst ("(Salvage) " ++ m.name) "(Salvage) " = m.name := by
      have hdata2 : ("(Salvage) " ++ m.name).data = "(Salvage) ".data ++ m.name.data := by
        obtain ⟨d⟩ := m.name
        rfl
      simp only [jsReplaceFirst, hdata2, replFirst_append_self]
    simp only [List.map_cons, untagMaterials,
      ih (fun x hx => h x (List.mem_cons_of_mem _ hx)), hc, if_pos, hrepl,
      h m (List.mem_cons_self m ms)]

/-- C8 (amended): flattening with the `"(Salvage) "` provenance prefix and
then applying the display layer's untagging recovers both lists exactly,
provided no recycling material's name itself starts with `"(Salvage)"` and no
salvaging material's name carries leading/trailing whitespace (the display
layer trims recovered salvage names). -/
theorem provenance_tag_roundtrip (recycling salvaging : List Material)
    (hr : ∀ m ∈ recycling, jsStarts "(Salvage)" m.name = false)
    (hs : ∀ m ∈ salvaging, jsTrim m.name = m.name) :
    untagMaterials (tagMaterials recycling salvaging) = (recycling, salvaging) := by
  induction recycling with
  | nil => simpa [tagMaterials] using untag_tagged_salv salvaging hs
  | cons m ms ih =>
    have hm : jsStarts "(Salvage)" m.name = false := hr m (List.mem_cons_self m ms)
    have step : untagMaterials (tagMaterials (m :: ms) salvaging) =
        ((⟨m.name, m.quantity⟩ : Material) :: (untagMaterials (tagMaterials ms salvaging)).1,
         (untagMaterials (tagMaterials ms salvaging)).2) := by
      simp only [tagMaterials, List.map_cons, List.cons_append, untagMaterials, hm,
        Bool.false_eq_true, if_false, List.append_eq]
    rw [step, ih (fun x hx => hr x (List.mem_cons_of_mem _ hx))]

/-- C8 witness: the round trip at a concrete recycling/salvaging pair. -/
theorem provenance_tag_roundtrip_witness :
    untagMaterials (tagMaterials [⟨"Steel", 5⟩] [⟨"Scrap", 1⟩]) =
      ([⟨"Steel", 5⟩], [⟨"Scrap", 1⟩]) :=
  provenance_tag_roundtrip [⟨"Steel", 5⟩] [⟨"Scrap", 1⟩] (by decide) (by decide)

/-- C8 counterexample: a recycling material literally named
`"(Salvage) Steel"` is misclassified as salvaging by the untagging and its
name is rewritten, so the tagging does not round-trip unconditionally. -/
theorem provenance_tag_collision :
    untagMaterials (tagMaterials [⟨"(Salvage) Steel", 2⟩] []) = ([], [⟨"Steel", 2⟩]) ∧
    untagMaterials (tagMaterials [⟨"(Salvage) Steel", 2⟩] []) ≠
      ([⟨"(Salvage) Steel", 2⟩], []) := by decide

/-- C3: with `max_retries = 3`, an always-failing operation is invoked
exactly 4 times, the failure of the last invocation is re-raised, and the
three sleeps taken are `delaySchedule[0..2]` (each read through `delayAt`,
which clamps to the last configured delay once the schedule is exhausted);
an operation whose first attempt succeeds is invoked exactly once with no
sleep. -/
theorem retry_policy_bounds {ε α δ : Type} (delays : List δ)
    (op : Nat → Except ε α) (efn : Nat → ε) :
    ((∀ k, op k = Except.error (efn k)) →
      retry_with_backoff 3 delays op =
        (Except.error (efn 3), 4,
         [delayAt delays 0, delayAt delays 1, delayAt delays 2])) ∧
    (∀ a, op 0 = Except.ok a →
      retry_with_backoff 3 delays op = (Except.ok a, 1, [])) ∧
    (∀ i, delays.length ≤ i → delayAt delays i = delays.getLast?) := by
  refine ⟨?_, ?_, ?_⟩
  · intro h
    simp [retry_with_backoff, retryGo, h]
  · intro a h
    simp [retry_with_backoff, retryGo, h]
  · intro i h
    simp only [delayAt, if_neg (by omega : ¬ i < delays.length)]

/-- C3 witness: the retry bounds at a concrete schedule and operations. -/
theorem retry_policy_bounds_witness :
    retry_with_backoff 3 [1, 2, 4] (fun _ => (Except.error 9 : Except Nat Nat)) =
      (Except.error 9, 4, [some 1, some 2, some 4]) ∧
    retry_with_backoff 3 [1, 2, 4] (fun _ => (Except.ok 5 : Except Nat Nat)) =
      (Except.ok 5, 1, []) := by
  constructor
  · rw [(retry_policy_bounds [1, 2, 4] (fun _ => (Except.error 9 : Except Nat Nat))
      (fun _ => 9)).1 (fun _ => rfl)]
    rfl
  · rw [(retry_policy_bounds [1, 2, 4] (fun _ => (Except.ok 5 : Except Nat Nat))
      (fun _ => 9)).2.1 5 rfl]

/-- C5 (amended): when extraction of an item fails, category mode
(`scrape_item_page`) retains the item with an empty materials list and
appends exactly one failure record carrying the item's name, url and error;
loot mode (`scrape_loot`'s item loop) appends the same failure record but
omits the failed item from the catalog — its items are exactly the successes,
in order. -/
theorem item_failure_handling :
    (∀ (failed : List FailureRecord) (info : ItemInfo) (e : String),
      scrape_item_page failed info (Except.error e) =
        (⟨info.name, info.category, info.url, []⟩, failed ++ [⟨info.name, info.url, e⟩])) ∧
    (∀ (o : ItemInfo → Except String (List Material)) (is : List ItemInfo)
        (f : List FailureRecord),
      (lootRun o is f).1 = is.filterMap (fun i =>
        match o i with
        | .ok ms => some (⟨i.name, i.category, i.url, ms⟩ : Item)
        | .error _ => none) ∧
      (lootRun o is f).2 = f ++ is.filterMap (fun i =>
        match o i with
        | .ok _ => none
        | .error e => some (⟨i.name, i.url, e⟩ : FailureRecord))) :=
  ⟨fun _ _ _ => rfl, fun o is f => ⟨lootRun_fst o is f, lootRun_snd o is f⟩⟩

/-- C5 counterexample: in loot mode a failed item is recorded but *not*
retained in the catalog with an empty materials list, contrary to the claim. -/
theorem loot_failure_item_dropped :
    (lootRun (fun _ => Except.error "timeout") [c5info] []).1 = [] ∧
    (lootRun (fun _ => Except.error "timeout") [c5info] []).2 =
      [⟨"Rusty Fan", "https://arcraiders.wiki/wiki/Rusty_Fan", "timeout"⟩] ∧
    ¬ ((⟨"Rusty Fan", "Loot", "https://arcraiders.wiki/wiki/Rusty_Fan", []⟩ : Item) ∈
        (lootRun (fun _ => Except.error "timeout") [c5info] []).1) := by decide

/-- C10 (amended): only the labeled-column table path normalizes the
multiplication glyph — a cell segment is parsed from its `×`-normalized form,
so segment parsing cannot distinguish `"Polymer ×3"` from `"Polymer x3"`;
the list strategy parses the raw `li` text with no normalization. -/
theorem glyph_normalization_scope :
    (∀ s : String, parseCellPart s = parseCellPart (normalizeX s)) ∧
    parseCellPart "Polymer ×3" = [⟨"Polymer", 3⟩] ∧
    (∀ lst : Dom, extract_from_list lst =
      (findTagF ["li"] (childrenForest lst)).flatMap
        (fun it => keepParsed (parse_material_text (getTextStrip it)))) := by
  refine ⟨?_, by decide, fun _ => rfl⟩
  intro s
  simp only [parseCellPart, normalizeX_idem]

/-- C10 counterexample: in the list strategy `"Polymer ×3"` yields no
material at all, while `"Polymer x3"` parses — the glyph is not normalized
before pattern matching there. -/
theorem list_glyph_not_normalized :
    extract_from_list c10ul = [] ∧
    parse_material_text "Polymer ×3" = none ∧
    parse_material_text "Polymer x3" = some ("Polymer", 3) := by decide

/-- C1: evaluation of `save_to_json` at the failing inputs.  A failure at the
rename step loses a pre-existing destination (it was removed before the
rename, so nothing atomic replaced it), and a `PermissionError` during the
temp write leaves the temporary file behind; the success path does replace
the destination and clear the temp file. -/
theorem save_to_json_fault_eval :
    save_to_json ⟨some "old", none⟩ "new" (.duringRename .other) =
      (some .other, ⟨none, none⟩) ∧
    save_to_json ⟨some "old", none⟩ "new" (.duringWrite .perm "par") =
      (some .perm, ⟨some "old", some "par"⟩) ∧
    save_to_json ⟨some "old", none⟩ "new" .noFault = (none, ⟨some "new", none⟩) := by
  decide

/-- C2: for any input line, `_parse_material_text` returns the
`(name, quantity)` interpretation of the lowest-numbered matching pattern
(`patResult` reorders the groups of the `QUANTITY x NAME` pattern so the
integer becomes the quantity); a line matching no pattern yields `none`. -/
theorem parse_material_priority (text : String) :
    (∀ i : Nat, i < 5 → (patResult i text).isSome →
      (∀ j : Nat, j < i → patResult j text = none) →
      parse_material_text text = patResult i text) ∧
    ((∀ j : Nat, j < 5 → patResult j text = none) →
      parse_material_text text = none) := by
  constructor
  · intro i hi hsome hmin
    obtain ⟨r, hr⟩ := Option.isSome_iff_exists.mp hsome
    interval_cases i
    · simp only [parse_material_text, hr]
    · simp only [parse_material_text, hmin 0 (by omega), hr]
    · simp only [parse_material_text, hmin 0 (by omega), hmin 1 (by omega), hr]
    · simp only [parse_material_text, hmin 0 (by omega), hmin 1 (by omega),
        hmin 2 (by omega), hr]
    · simp only [parse_material_text, hmin 0 (by omega), hmin 1 (by omega),
        hmin 2 (by omega), hmin 3 (by omega), hr]
  · intro h
    simp only [parse_material_text, h 0 (by omega), h 1 (by omega), h 2 (by omega),
      h 3 (by omega), h 4 (by omega)]

/-- C2 witness: `"Steel: 5 (rare)"` matches pattern 1 first and parses
through it to `("Steel", 5)`. -/
theorem parse_material_priority_witness :
    parse_material_text "Steel: 5 (rare)" = some ("Steel", 5) := by
  rw [(parse_material_priority "Steel: 5 (rare)").1 0 (by omega) (by decide)
      (fun j hj => absurd hj (by omega))]
  decide

/-- C6: in the labeled-column table branch, a call requesting only salvaging
(the keywords mention a salvage substring and no recycling substring)
extracts solely from the salvaging column — every row contributes only its
salvaging cell — and on the spec's concrete two-column scenario the salvaging
request yields `[{Scrap,1}]` while the recycling request (symmetrically)
yields `[{Steel,5},{Electronics,2}]`. -/
theorem labeled_table_column_selection (kws : List String) (ridx sidx : Option Nat)
    (rows : List Dom) (hs : wantSalv kws = true) (hr : wantRec kws = false) :
    processRows kws ridx sidx rows = rows.flatMap (fun row =>
      match sidx with
      | some j =>
        if j < (findTagF ["td", "th"] (childrenForest row)).length then
          parseCell ((findTagF ["td", "th"] (childrenForest row)).getD j Dom.nil)
        else []
      | none => []) ∧
    extract_section_materials c6doc salvKeywords = [⟨"Scrap", 1⟩] ∧
    extract_section_materials c6doc recKeywords = [⟨"Steel", 5⟩, ⟨"Electronics", 2⟩] := by
  refine ⟨?_, by decide, by decide⟩
  cases ridx <;> cases sidx <;>
    (induction rows with
     | nil => rfl
     | cons row rs ih => simp [processRows, hs, hr, ih])

/-- C6 witness: the column-selection theorem applied to the scenario's data
row with salvaging keywords. -/
theorem labeled_table_column_selection_witness :
    processRows salvKeywords (some 0) (some 1) [c6row] = [⟨"Scrap", 1⟩] := by
  rw [(labeled_table_column_selection salvKeywords (some 0) (some 1) [c6row]
      (by decide) (by decide)).1]
  decide

/-- C9 (amended): category-page link discovery rejects hyperlinks with empty
visible text (every produced candidate has a non-empty name); the Loot page's
table and fallback strategies instead keep such links, substituting the
resolved URL for the missing name. -/
theorem link_text_rules :
    (∀ (base catPath cname : String) (links : List Dom) (seen : List String),
      ∀ c ∈ catScan base catPath cname links seen, c.name ≠ "") ∧
    (∀ (base : String) (content : Dom),
      lootItemInfos base content = (lootLinkCandidates content).map (lootInfoOf base)) ∧
    (∀ (base : String) (l : Dom),
      (lootInfoOf base l).name =
        (if getTextStrip l == "" then resolveUrl base (hrefOf l) else getTextStrip l)) := by
  refine ⟨?_, fun _ _ => rfl, fun _ _ => rfl⟩
  intro base catPath cname links
  induction links with
  | nil =>
    intro seen c hc
    simp [catScan] at hc
  | cons l ls ih =>
    intro seen c hc
    simp only [catScan] at hc
    split at hc
    · exact ih seen c hc
    · split at hc
      · exact ih seen c hc
      · split at hc
        · exact ih seen c hc
        · rcases List.mem_append.mp hc with h1 | h2
          · split at h1
            · cases h1
            · next hne =>
              rw [List.mem_singleton.mp h1]
              simpa using hne
          · exact ih _ c h2

/-- C9 witness: a concrete category-page link with visible text produces the
candidate the theorem certifies to have a non-empty name. -/
theorem link_text_rules_witness :
    catScan "https://w" "/wiki/Weapons" "Weapons" [c9goodLink] [] =
      [⟨"Bar", "Weapons", "https://w/wiki/Bar"⟩] ∧
    (⟨"Bar", "Weapons", "https://w/wiki/Bar"⟩ : ItemInfo).name ≠ "" :=
  ⟨by decide,
   link_text_rules.1 "https://w" "/wiki/Weapons" "Weapons" [c9goodLink] []
     ⟨"Bar", "Weapons", "https://w/wiki/Bar"⟩ (by decide)⟩

/-- C9 counterexample: on the Loot page both the table strategy (`c9doc`) and
the fallback link scan (`c9doc2`) keep a hyperlink whose visible text is
empty, producing a `{name, url}` candidate whose name is the resolved URL —
the claim says such links contribute no candidate. -/
theorem empty_text_link_kept :
    lootItemInfos "https://arcraiders.wiki" c9doc =
      [⟨"https://arcraiders.wiki/wiki/Foo", "Loot", "https://arcraiders.wiki/wiki/Foo"⟩] ∧
    lootItemInfos "https://arcraiders.wiki" c9doc2 =
      [⟨"https://arcraiders.wiki/wiki/Bar", "Loot", "https://arcraiders.wiki/wiki/Bar"⟩] := by
  decide

theorem nodeAct_of_heading (kws : List String) (h : Dom) (hh : isHeadingN h = true) :
    nodeAct kws h = .stop := by
  cases h with
  | nil => simp [isHeadingN] at hh
  | text s r => simp [isHeadingN] at hh
  | node t a c r =>
    simp only [isHeadingN] at hh
    simp [nodeAct, hh]

/-- C4 (amended): only the loot-mode extractor walks in full document order —
its `find_next` chain on an element lists the node and then its children's
chains (so nodes nested in containers are visited), its walk ignores
everything after the first later level 2–4 heading, and it can stop even
earlier, returning at a labeled recycling/salvaging table with that table's
materials.  The category-mode extractor visits only direct siblings of the
heading: a non-handled container such as `section` is skipped without its
children being visited, and the sibling walk ignores everything appended
after the siblings once a heading heads it. -/
theorem section_walk_boundaries (kws : List String) :
    (∀ (seg : List Dom) (h : Dom) (rest : List Dom),
      (∀ n ∈ seg, ∃ ms, nodeAct kws n = .emit ms) → isHeadingN h = true →
      walkLoop kws (seg ++ h :: rest) = walkLoop kws seg) ∧
    (∀ (seg : List Dom) (tbl : Dom) (rest : List Dom) (ms : List Material),
      (∀ n ∈ seg, ∃ ms2, nodeAct kws n = .emit ms2) → nodeAct kws tbl = .stopWith ms →
      walkLoop kws (seg ++ tbl :: rest) = walkLoop kws seg ++ ms) ∧
    (∀ (t : String) (a : List (String × String)) (c r : Dom),
      preorderNodes (.node t a c r) =
        .node t a c .nil :: (preorderNodes c ++ preorderNodes r)) ∧
    (∀ (sibs d : Dom), topNoHeading sibs = true → isHeadingN d = true →
      sibWalk (fcat sibs d) = sibWalk sibs) ∧
    (∀ (a : List (String × String)) (c r : Dom),
      sibWalk (.node "section" a c r) = sibWalk r) := by
  refine ⟨?_, ?_, fun _ _ _ _ => rfl, ?_, ?_⟩
  · intro seg h rest hseg hh
    induction seg with
    | nil => simp [walkLoop, nodeAct_of_heading kws h hh]
    | cons n ns ih =>
      obtain ⟨ms, hms⟩ := hseg n (List.mem_cons_self n ns)
      simp only [List.cons_append, walkLoop, hms, List.append_eq]
      rw [ih (fun x hx => hseg x (List.mem_cons_of_mem _ hx))]
  · intro seg tbl rest ms hseg htbl
    induction seg with
    | nil => simp [walkLoop, htbl]
    | cons n ns ih =>
      obtain ⟨ms2, hms⟩ := hseg n (List.mem_cons_self n ns)
      simp only [List.cons_append, walkLoop, hms, List.append_eq]
      rw [ih (fun x hx => hseg x (List.mem_cons_of_mem _ hx))]
      simp
  · intro sibs d hns hd
    induction sibs with
    | nil =>
      cases d with
      | nil => simp [isHeadingN] at hd
      | text s r => simp [isHeadingN] at hd
      | node t a c r =>
        simp only [isHeadingN] at hd
        simp [fcat, sibWalk, hd]
    | text s r ih =>
      simp only [topNoHeading] at hns
      simp [fcat, sibWalk, ih hns]
    | node t a c r ihc ihr =>
      simp only [topNoHeading, Bool.and_eq_true, Bool.not_eq_true'] at hns
      simp [fcat, sibWalk, hns.1, ihr hns.2]
  · intro a c r
    simp [sibWalk]

/-- C4 witness: the boundary facts at concrete forests — a heading after a
text node ends the document-order walk, and appending a heading after the
siblings does not change the sibling walk. -/
theorem section_walk_boundaries_witness :
    walkLoop ["recycled"] ([Dom.text "intro" Dom.nil] ++ c4heading :: [c4sibs]) = [] ∧
    sibWalk (fcat c4sibs c4heading) = sibWalk c4sibs := by
  constructor
  · rw [(section_walk_boundaries ["recycled"]).1 [Dom.text "intro" Dom.nil] c4heading
        [c4sibs]
        (by
          intro n hn
          simp only [List.mem_singleton] at hn
          subst hn
          exact ⟨[], rfl⟩)
        (by decide)]
    decide
  · exact (section_walk_boundaries ["recycled"]).2.2.2.1 c4sibs c4heading
      (by decide) (by decide)

/-- C4 counterexample: `extract_recycling_data` collects nothing from content
wrapped in a `section` container after its heading (the claim's document-order
walk, performed by `extract_section_materials`, does collect it), and the
loot-mode walk stops *before* the first subsequent heading when it meets a
labeled table — the list standing between the table and the next heading in
`c4doc2` is never collected. -/
theorem sibling_walk_counterexample :
    extract_recycling_data c4doc = [] ∧
    extract_section_materials c4doc ["recycled"] = [⟨"Steel", 5⟩] ∧
    extract_section_materials c4doc2 salvKeywords = [⟨"Scrap", 1⟩] := by decide

/-- C7: in both category mode and loot mode the produced catalog satisfies
the data-model invariants: every item is filed under its own category name,
which is a key of the mapping; `total_items` equals the sum of item counts
across categories; and the `failed_categories` / `failed_items` metadata
counters equal the lengths of the corresponding failure-record lists. -/
theorem catalog_metadata_invariants
    (linkO : String → String → Except String (List (String × String)))
    (itemO lootO : ItemInfo → Except String (List Material))
    (sAt sAt2 baseU : String) (el el2 : Nat) (content : Dom)
    (ifc ifi : List FailureRecord) :
    catalogInv (scrape_all_categories linkO itemO sAt el).1
        (scrape_all_categories linkO itemO sAt el).2.1
        (scrape_all_categories linkO itemO sAt el).2.2 = true ∧
    catalogInv (scrape_loot baseU content lootO ifc ifi sAt2 el2).1
        (scrape_loot baseU content lootO ifc ifi sAt2 el2).2.1
        (scrape_loot baseU content lootO ifc ifi sAt2 el2).2.2 = true := by
  constructor
  · have h := runCategories_inv linkO itemO CATEGORIES [] []
    simp only [catalogInv, scrape_all_categories, Bool.and_eq_true, List.all_eq_true,
      beq_iff_eq, keyNames]
    refine ⟨⟨⟨?_, ?_⟩, ?_⟩, ?_⟩
    · intro p hp it hit
      constructor
      · exact h.2 p hp it hit
      · rw [h.2 p hp it hit]
        exact contains_of_mem_str _ _ (List.mem_map_of_mem (fun q => q.1) hp)
    · exact h.1
    · trivial
    · trivial
  · simp only [catalogInv, scrape_loot, Bool.and_eq_true, List.all_eq_true,
      beq_iff_eq, keyNames]
    refine ⟨⟨⟨?_, ?_⟩, ?_⟩, ?_⟩
    · intro p hp it hit
      simp only [List.mem_singleton] at hp
      subst hp
      have : it.category = "Loot" := by
        rw [lootRun_fst] at hit
        obtain ⟨i, hi, heq⟩ := List.mem_filterMap.mp hit
        obtain ⟨l, _, rfl⟩ := List.mem_map.mp hi
        cases hlo : lootO (lootInfoOf baseU l) with
        | ok ms =>
          rw [hlo] at heq
          cases heq
          rfl
        | error e =>
          rw [hlo] at heq
          cases heq
      simp [this, List.contains]
    · simp
    · trivial
    · trivial

end Recyclone
